import Mathlib

/-!
Verification development for the Government Job Form Analysis backend
(`src/backend/app.py`).  The Python source is shallowly embedded below:
strings are `List Char`, Python functions become executable Lean
functions, Python exceptions become `Except`/`Option` values, and the two
external collaborators (the PDF text extractor and the LLM completion
service together with the JSON decoder of its reply) are abstracted as
function parameters, exactly as the specification treats them.
-/

set_option maxRecDepth 10000

namespace JobForm

/-- Python strings are modelled as lists of characters. -/
abbrev pyStr := List Char

/-- Embed a Lean string literal as a Python string value. -/
def S (s : String) : pyStr := s.data

/-- Python `str.lower()` (ASCII range; all strings in the program are ASCII). -/
def pyLower (s : pyStr) : pyStr := s.map Char.toLower

/-- Python `str.upper()` (ASCII range). -/
def pyUpper (s : pyStr) : pyStr := s.map Char.toUpper

/-- Characters treated as whitespace by Python `str.strip()` (ASCII subset). -/
def isSpaceChar (c : Char) : Bool :=
  (c == ' ') || (c == '\t') || (c == '\n') || (c == '\x0d') || (c == '\x0b') || (c == '\x0c')

/-- Python `str.strip()`: drop leading and trailing whitespace. -/
def pyStrip (s : pyStr) : pyStr :=
  ((s.dropWhile isSpaceChar).reverse.dropWhile isSpaceChar).reverse

/-- Whether `pre` is a prefix of `s` (Python `str.startswith`). -/
def strHasPrefix : pyStr → pyStr → Bool
  | _, [] => true
  | [], _ :: _ => false
  | c :: s, p :: pre => (c == p) && strHasPrefix s pre

/-- Python's substring test `needle in hay`. -/
def strContains : pyStr → pyStr → Bool
  | s, needle =>
    if strHasPrefix s needle then true
    else match s with
      | [] => false
      | _ :: s' => strContains s' needle

/-- Python `str.endswith`. -/
def strHasSuffix (s suffix : pyStr) : Bool := strHasPrefix s.reverse suffix.reverse

/-- Python `str.replace(old, new)` for single characters. -/
def pyReplaceChar (old new : Char) (s : pyStr) : pyStr :=
  s.map (fun c => if c == old then new else c)

/-- Fuel-driven worker for `pyReplaceStr`; the fuel is the string length, and
each step consumes at least one character, so it never runs out. -/
def replaceGo (old new : pyStr) : Nat → pyStr → pyStr
  | 0, s => s
  | _ + 1, [] => []
  | f + 1, c :: s =>
    if (!old.isEmpty) && strHasPrefix (c :: s) old then
      new ++ replaceGo old new f (List.drop old.length (c :: s))
    else
      c :: replaceGo old new f s

/-- Python `str.replace(old, new)` for multi-character `old`: non-overlapping
replacement scanning left to right.  (Python's special case for an empty
`old` pattern is not reproduced; every call site uses a nonempty pattern.) -/
def pyReplaceStr (s old new : pyStr) : pyStr := replaceGo old new s.length s

/-- Python `str.split(sep)` for a single-character separator: keeps empty
parts, as Python does. -/
def pySplit (sep : Char) : pyStr → List pyStr
  | [] => [[]]
  | c :: s =>
    if c == sep then [] :: pySplit sep s
    else match pySplit sep s with
      | [] => [[c]]
      | p :: ps => (c :: p) :: ps

/-- Python `str.zfill(width)`: pad with leading zeros, keeping a leading
sign character in place. -/
def pyZfill (width : Nat) (s : pyStr) : pyStr :=
  if s.length ≥ width then s
  else match s with
    | c :: rest =>
      if (c == '+') || (c == '-') then c :: List.replicate (width - s.length) '0' ++ rest
      else List.replicate (width - s.length) '0' ++ s
    | [] => List.replicate width '0'

/-- ASCII decimal digit (the digits recognised both by `int` and by `\d`
over the ASCII documents of this program). -/
def isDigitCh (c : Char) : Bool :=
  (c == '0') || (c == '1') || (c == '2') || (c == '3') || (c == '4')
    || (c == '5') || (c == '6') || (c == '7') || (c == '8') || (c == '9')

/-- Numeric value of a digit string (most significant digit first). -/
def digVal (s : pyStr) : Nat := s.foldl (fun a c => 10 * a + (c.toNat - 48)) 0

/-- Whether the string contains two adjacent underscores (Python's `int`
rejects that grouping). -/
def hasDoubleUnderscore : pyStr → Bool
  | [] => false
  | [_] => false
  | a :: b :: rest => ((a == '_') && (b == '_')) || hasDoubleUnderscore (b :: rest)

/-- Python `int(s)` restricted to the non-negative outcomes that can appear in
this program (a `-` sign can never survive `str.split('-')`): optional
surrounding whitespace, an optional `+` sign, then decimal digits with
optional single grouping underscores.  `none` models a raised `ValueError`. -/
def pyInt (s : pyStr) : Option Nat :=
  let t := pyStrip s
  let t2 := if t.headD ' ' == '+' then t.tail else t
  if (!t2.isEmpty)
      && t2.all (fun c => isDigitCh c || (c == '_'))
      && isDigitCh (t2.headD ' ')
      && isDigitCh (t2.getLastD ' ')
      && !hasDoubleUnderscore t2 then
    some (digVal (t2.filter (fun c => !(c == '_'))))
  else none

/-- Decimal rendering of a natural number (used for the
`Organization_{idx+1}` placeholder names). -/
def natToStr (n : Nat) : pyStr := Nat.toDigits 10 n

/-- Association-list lookup modelling a Python `dict` membership/`[]` read
(keys in the embedded tables are unique). -/
def tableGet : List (pyStr × pyStr) → pyStr → Option pyStr
  | [], _ => none
  | (k, v) :: rest, key => if k == key then some v else tableGet rest key

/-- `ORGANIZATION_MAPPINGS` from `app.py`: lowercase keyword → canonical
organization id, in the source's insertion order (Python dicts iterate in
insertion order, which matters for "first match wins"). -/
def ORGANIZATION_MAPPINGS : List (pyStr × pyStr) :=
  [ (S ("ntpc"), S ("NTPC"))
  , (S ("ngel"), S ("NTPC"))
  , (S ("green energy"), S ("NTPC"))
  , (S ("tanuvas"), S ("TANUVAS"))
  , (S ("tamil nadu veterinary"), S ("TANUVAS"))
  , (S ("csir"), S ("CSIR"))
  , (S ("council of scientific"), S ("CSIR"))
  , (S ("nhm"), S ("NHM"))
  , (S ("national health mission"), S ("NHM"))
  , (S ("aau"), S ("AAU"))
  , (S ("assam agricultural"), S ("AAU")) ]

/-- `KNOWN_LAST_DATES` from `app.py`: fallback deadline per organization. -/
def KNOWN_LAST_DATES : List (pyStr × pyStr) :=
  [ (S ("NTPC"), S ("01-05-2025"))
  , (S ("TANUVAS"), S ("15-02-2025"))
  , (S ("CSIR"), S ("15-02-2025"))
  , (S ("NHM"), S ("31-01-2025"))
  , (S ("AAU"), S ("31-01-2025")) ]

/-- First `(keyword, org)` pair of `ORGANIZATION_MAPPINGS` (in insertion
order) whose keyword is a substring of `hay`; returns the org id. -/
def lookupFirstSub : List (pyStr × pyStr) → pyStr → Option pyStr
  | [], _ => none
  | (k, org) :: rest, hay =>
    if strContains hay k then some org else lookupFirstSub rest hay

/-- Truthiness-and-placeholder test guarding the provided-name branch of
`detect_organization_from_text`: Python
`provided_name and provided_name.lower() not in ["unknown", "organization"]`. -/
def providedActive (provided : pyStr) : Bool :=
  (!provided.isEmpty)
    && !(pyLower provided == S ("unknown"))
    && !(pyLower provided == S ("organization"))

/-- `detect_organization_from_text(text, provided_name)` from `app.py`
(lines 118-147): caller hint first (keyword-mapped, else stripped and
uppercased), then keyword scan of the first 500 characters, then of the
full text, then the provided name or the literal `"Unknown Organization"`. -/
def detect_organization_from_text (text : pyStr) (provided : pyStr := []) : pyStr :=
  if providedActive provided then
    let provided_clean := pyUpper (pyStrip provided)
    match lookupFirstSub ORGANIZATION_MAPPINGS (pyLower provided_clean) with
    | some org => org
    | none => provided_clean
  else
    let header := pyLower (text.take 500)
    match lookupFirstSub ORGANIZATION_MAPPINGS header with
    | some org => org
    | none =>
      match lookupFirstSub ORGANIZATION_MAPPINGS (pyLower text) with
      | some org => org
      | none => if !provided.isEmpty then provided else S ("Unknown Organization")

/-- `normalize_date(date_str)` from `app.py` (lines 203-229): replace `/` and
`.` separators by `-`, split, require exactly 3 parts, zero-pad day and
month, expand a 2-digit year with `20`, and accept only
day∈[1,31] ∧ month∈[1,12] ∧ year∈[2024,2026].  A `ValueError` from `int`
(modelled by `pyInt = none`) is caught by the source's bare `except` and
yields `""`; the function is total and never propagates an exception. -/
def normalize_date (date_str : pyStr) : pyStr :=
  let replaced := pyReplaceChar '.' '-' (pyReplaceChar '/' '-' date_str)
  let parts := pySplit '-' replaced
  if parts.length ≠ 3 then []
  else
    match parts with
    | [d0, m0, y0] =>
      let day := pyZfill 2 d0
      let month := pyZfill 2 m0
      let year := if y0.length = 2 then '2' :: '0' :: y0 else y0
      match pyInt day, pyInt month, pyInt year with
      | some d, some m, some y =>
        if 1 ≤ d ∧ d ≤ 31 ∧ 1 ≤ m ∧ m ≤ 12 ∧ 2024 ≤ y ∧ y ≤ 2026 then
          day ++ '-' :: month ++ '-' :: year
        else []
      | _, _, _ => []
    | _ => []

/-- Calendar dates as (year, month, day) triples; `datetime` values compared
only at midnight boundaries reduce to this. -/
abbrev DateT := Nat × Nat × Nat

/-- Strict lexicographic order on calendar dates, matching `datetime`
comparison (a `datetime.now()` lying inside day `a` is still `≥` midnight of
day `a`, so comparing the current date triple strictly is exact for the
`now < datetime(y, m, d)` test in the source). -/
def dateLt (a b : DateT) : Bool :=
  (a.1 < b.1) || ((a.1 == b.1) && ((a.2.1 < b.2.1) || ((a.2.1 == b.2.1) && (a.2.2 < b.2.2))))

/-- Gregorian leap-year rule, as used by Python `datetime`. -/
def isLeap (y : Nat) : Bool := (y % 4 == 0) && ((y % 100 != 0) || (y % 400 == 0))

/-- Days in a month, as validated by the `datetime` constructor. -/
def daysInMonth (y m : Nat) : Nat :=
  if m == 2 then (if isLeap y then 29 else 28)
  else if (m == 4) || (m == 6) || (m == 9) || (m == 11) then 30
  else 31

/-- Whether `datetime(y, m, d)` constructs without raising. -/
def validDatetime (y m d : Nat) : Bool :=
  (1 ≤ y) && (y ≤ 9999) && (1 ≤ m) && (m ≤ 12) && (1 ≤ d) && (d ≤ daysInMonth y m)

/-- `is_reasonable_future_date(date_str)` from `app.py` (lines 232-242),
with the ambient `datetime.now()` made an explicit `now` parameter (its
current date triple).  Any unpacking, `int`, or `datetime` failure is caught
by the source's bare `except` and yields `False`. -/
def is_reasonable_future_date (now : DateT) (date_str : pyStr) : Bool :=
  match pySplit '-' date_str with
  | [a, b, c] =>
    match pyInt a, pyInt b, pyInt c with
    | some d, some m, some y =>
      if validDatetime y m d then
        dateLt now (y, m, d) && dateLt (y, m, d) (2025, 12, 31)
      else false
    | _, _, _ => false
  | _ => false

/-!
A small backtracking regular-expression engine covering exactly the
constructs used by the patterns in `app.py`: single-character classes,
concatenation, lazy `.*?`, greedy `.*`, greedy bounded repetition
`\d{lo,hi}`, and a single capture group.  Matching follows Python `re`
semantics: leftmost match position wins, and within a position alternatives
are tried in preference order (greedy repetitions longer-first, lazy
repetitions shorter-first).
-/

/-- Regular-expression syntax used by the embedded patterns. -/
inductive RE where
  | eps : RE
  | cls (p : Char → Bool) : RE
  | seq (a b : RE) : RE
  | starL (p : Char → Bool) : RE
  | starG (p : Char → Bool) : RE
  | rep (p : Char → Bool) (lo hi : Nat) : RE
  | grp (a : RE) : RE

/-- Result of a match attempt: the unconsumed rest of the input and the
content of the capture group, if the group participated. -/
abbrev MRes := Option (pyStr × Option pyStr)

/-- Continuations for the backtracking matcher. -/
abbrev MCont := pyStr → Option pyStr → MRes

/-- Lazy star: prefer consuming as little as possible, backtracking by
consuming one more matching character at a time. -/
def mstarLazy (p : Char → Bool) : pyStr → Option pyStr → MCont → MRes
  | s, cap, k =>
    match k s cap with
    | some r => some r
    | none =>
      match s with
      | [] => none
      | c :: s' => if p c then mstarLazy p s' cap k else none

/-- Greedy star: prefer consuming as much as possible, backtracking by
giving characters back one at a time. -/
def mstarGreedy (p : Char → Bool) : pyStr → Option pyStr → MCont → MRes
  | [], cap, k => k [] cap
  | c :: s', cap, k =>
    if p c then
      match mstarGreedy p s' cap k with
      | some r => some r
      | none => k (c :: s') cap
    else k (c :: s') cap

/-- Greedy bounded repetition `p{lo,hi}`: try the longest repetition first,
falling back to shorter ones down to `lo`. -/
def mrep (p : Char → Bool) : Nat → Nat → pyStr → Option pyStr → MCont → MRes
  | _, 0, s, cap, k => k s cap
  | lo, _ + 1, [], cap, k => if lo = 0 then k [] cap else none
  | lo, hi + 1, c :: s', cap, k =>
    if p c then
      match mrep p (lo - 1) hi s' cap k with
      | some r => some r
      | none => if lo = 0 then k (c :: s') cap else none
    else if lo = 0 then k (c :: s') cap else none

/-- The backtracking matcher in continuation-passing style.  The capture
slot records the most recent participation of the (single) group. -/
def mrun : RE → pyStr → Option pyStr → MCont → MRes
  | .eps, s, cap, k => k s cap
  | .cls p, s, cap, k =>
    match s with
    | [] => none
    | c :: s' => if p c then k s' cap else none
  | .seq a b, s, cap, k => mrun a s cap (fun s' cap' => mrun b s' cap' k)
  | .starL p, s, cap, k => mstarLazy p s cap k
  | .starG p, s, cap, k => mstarGreedy p s cap k
  | .rep p lo hi, s, cap, k => mrep p lo hi s cap k
  | .grp a, s, cap, k =>
    mrun a s cap (fun s' _ => k s' (some (s.take (s.length - s'.length))))

/-- Attempt a match anchored at the start of `s`. -/
def matchAt (re : RE) (s : pyStr) : MRes :=
  mrun re s none (fun rest cap => some (rest, cap))

/-- Worker for `pyFindall`; fuel bounds the number of scan steps. -/
def findallAux (re : RE) : Nat → pyStr → List pyStr
  | 0, _ => []
  | fuel + 1, s =>
    match matchAt re s with
    | some (rest, cap) =>
      let consumed := s.take (s.length - rest.length)
      let item := cap.getD consumed
      if rest.length < s.length then item :: findallAux re fuel rest
      else
        match s with
        | [] => [item]
        | _ :: s' => item :: findallAux re fuel s'
    | none =>
      match s with
      | [] => []
      | _ :: s' => findallAux re fuel s'

/-- Python `re.findall`: non-overlapping matches scanning left to right;
with one capture group in the pattern the group content is returned,
otherwise the whole match. -/
def pyFindall (re : RE) (s : pyStr) : List pyStr := findallAux re (s.length + 1) s

/-- Python `re.search`: the leftmost match, as (whole match, group). -/
def pySearch (re : RE) : pyStr → Option (pyStr × Option pyStr)
  | [] =>
    match matchAt re [] with
    | some (_, cap) => some ([], cap)
    | none => none
  | c :: s' =>
    match matchAt re (c :: s') with
    | some (rest, cap) =>
      some ((c :: s').take ((c :: s').length - rest.length), cap)
    | none => pySearch re s'

/-- Case-insensitive single-character literal (the patterns are compiled
with `re.IGNORECASE`). -/
def chCI (c : Char) : RE := .cls (fun x => x.toLower == c.toLower)

/-- Case-insensitive literal word. -/
def litCI (w : String) : RE := w.data.foldr (fun c acc => .seq (chCI c) acc) .eps

/-- Character class `\d` (ASCII digits; the documents are ASCII). -/
def dCls (c : Char) : Bool := isDigitCh c

/-- Character class `[-./]`, the date separators. -/
def sepCls (c : Char) : Bool := (c == '-') || (c == '.') || (c == '/')

/-- Character class `\s` (ASCII whitespace). -/
def wsCls (c : Char) : Bool := isSpaceChar c

/-- Character class `.` without `re.DOTALL`: anything but a newline. -/
def dotCls (c : Char) : Bool := !(c == '\n')

/-- `\s+` (greedy). -/
def wsPlus : RE := .seq (.cls wsCls) (.starG wsCls)

/-- `.*?` (lazy, not crossing newlines). -/
def lazyDots : RE := .starL dotCls

/-- The date-shaped token `\d{1,2}[-./]\d{1,2}[-./]\d{2,4}`. -/
def dateShape24 : RE :=
  .seq (.rep dCls 1 2) (.seq (.cls sepCls)
    (.seq (.rep dCls 1 2) (.seq (.cls sepCls) (.rep dCls 2 4))))

/-- The date-shaped token `\d{1,2}[-./]\d{1,2}[-./]\d{4}`. -/
def dateShape4 : RE :=
  .seq (.rep dCls 1 2) (.seq (.cls sepCls)
    (.seq (.rep dCls 1 2) (.seq (.cls sepCls) (.rep dCls 4 4))))

/-- Helper to chain a list of regexes in sequence. -/
def seqAll (rs : List RE) : RE := rs.foldr .seq .eps

/-- `date_patterns` from `app.py` (lines 157-167): the keyword-anchored
regex cascade, each pattern paired with its source label.  All are applied
with `re.IGNORECASE`, so the `[Ll]`-style leading classes reduce to
case-insensitive literals. -/
def date_patterns : List (RE × pyStr) :=
  [ (seqAll [litCI ("last"), wsPlus, litCI ("date"), lazyDots, .grp dateShape24],
      S ("last date keyword"))
  , (seqAll [litCI ("closing"), wsPlus, litCI ("date"), lazyDots, .grp dateShape24],
      S ("closing date"))
  , (seqAll [litCI ("submit"), lazyDots, litCI ("by"), lazyDots, .grp dateShape24],
      S ("submit by"))
  , (seqAll [litCI ("application"), lazyDots, litCI ("till"), lazyDots, .grp dateShape24],
      S ("application till"))
  , (seqAll [litCI ("deadline"), lazyDots, .grp dateShape24],
      S ("deadline"))
  , (seqAll [litCI ("before"), lazyDots, .grp dateShape24],
      S ("before date"))
  , (seqAll [litCI ("within"), lazyDots, .grp dateShape24],
      S ("within date"))
  , (seqAll [.grp dateShape4, lazyDots, litCI ("last")],
      S ("reverse last"))
  , (seqAll [litCI ("online"), wsPlus, litCI ("application"), lazyDots, .grp dateShape24],
      S ("online application")) ]

/-- One step of Method 1: `re.findall`, take the last match, normalize; the
pattern succeeds only if a match exists and normalizes to a nonempty date. -/
def tryPattern (text : pyStr) (pr : RE × pyStr) : Option (pyStr × pyStr) :=
  match (pyFindall pr.1 text).getLast? with
  | none => none
  | some last =>
    let n := normalize_date last
    if n.isEmpty then none else some (n, pr.2)

/-- The Method 1 loop over `date_patterns`: first pattern whose last match
normalizes successfully wins. -/
def scanPatterns (text : pyStr) : List (RE × pyStr) → Option (pyStr × pyStr)
  | [] => none
  | pr :: rest =>
    match tryPattern text pr with
    | some r => some r
    | none => scanPatterns text rest

/-- Keyword test of Method 2: the line (lowercased) contains one of
`last date` / `closing` / `deadline` / `till`. -/
def lineHasKw (line : pyStr) : Bool :=
  [S ("last date"), S ("closing"), S ("deadline"), S ("till")].any
    (fun kw => strContains (pyLower line) kw)

/-- Method 2 of `extract_last_date_comprehensive`: scan the lines; on a
keyword line take the first date-shaped token and normalize it; lines whose
date fails to normalize (or that have no date) are skipped. -/
def sectionScan : List pyStr → Option (pyStr × pyStr)
  | [] => none
  | line :: rest =>
    if lineHasKw line then
      match pySearch (.grp dateShape24) line with
      | some (whole, cap) =>
        let n := normalize_date (cap.getD whole)
        if n.isEmpty then sectionScan rest else some (n, S ("section scan"))
      | none => sectionScan rest
    else sectionScan rest

/-- Method 4 of `extract_last_date_comprehensive`: the first date-shaped
token anywhere in the text that normalizes and passes
`is_reasonable_future_date`. -/
def heuristicScan (now : DateT) : List pyStr → Option (pyStr × pyStr)
  | [] => none
  | d :: rest =>
    let n := normalize_date d
    if (!n.isEmpty) && is_reasonable_future_date now n then some (n, S ("heuristic scan"))
    else heuristicScan now rest

/-- `extract_last_date_comprehensive(text, org_name)` from `app.py`
(lines 150-200): the ordered cascade — keyword-anchored regex patterns,
line scan, known-organization fallback, heuristic future-date scan — with
the ambient `datetime.now()` of Method 4 made an explicit parameter. -/
def extract_last_date_comprehensive (now : DateT) (text : pyStr) (org_name : pyStr := []) :
    pyStr × pyStr :=
  match scanPatterns text date_patterns with
  | some r => r
  | none =>
    match sectionScan (pySplit '\n' text) with
    | some r => r
    | none =>
      match tableGet KNOWN_LAST_DATES org_name with
      | some d => (d, S ("known fallback"))
      | none =>
        match heuristicScan now (pyFindall dateShape4 text) with
        | some r => r
        | none => ([], S ("not found"))

/-!
The AI-extraction orchestrator `analyze_with_ultra_strict_ai`.  A parsed
JSON record is modelled as an association list with string keys and string
values in insertion order (the shape the source's repair loop assumes; a
non-string value would make `.lower()` raise and abort the document with a
generic failure, outside the behaviour claimed here).  The completion call
(prompt construction included) and the JSON decoder are the two external
collaborators, passed in as `complete` and `parse`; `parse = none` models a
raised `json.JSONDecodeError`.
-/

/-- A parsed JSON object: Python dict with string keys/values in insertion
order. -/
abbrev Record := List (pyStr × pyStr)

/-- Python `key in dict`. -/
def dictHasKey (k : pyStr) (d : Record) : Bool := d.any (fun p => p.1 == k)

/-- Python `dict[key]` as an `Option` (the repair loop only reads keys it
has ensured exist). -/
def dictGet (k : pyStr) : Record → Option pyStr
  | [] => none
  | (k', v) :: rest => if k' == k then some v else dictGet k rest

/-- Python `dict[key] = value`: update the (unique) existing entry in
place, keeping its position, else append at the end (dicts preserve
insertion order). -/
def dictSet (k v : pyStr) : Record → Record
  | [] => [(k, v)]
  | (k', v') :: rest =>
    if k' == k then (k', v) :: rest else (k', v') :: dictSet k v rest

/-- `required_fields` from `app.py` (lines 390-395): the 14 field names, in
source order. -/
def required_fields : List pyStr :=
  [ S ("advertisement_number"), S ("advertisement_date"), S ("post_name")
  , S ("vacancies"), S ("last_date"), S ("salary"), S ("location")
  , S ("age_limit"), S ("category"), S ("qualification"), S ("mandatory")
  , S ("specialization"), S ("experience_years"), S ("remarks") ]

/-- One step of the ensure-all-fields loop: `if field not in pos:
pos[field] = ""`. -/
def ensureStep (d : Record) (k : pyStr) : Record :=
  if dictHasKey k d then d else dictSet k [] d

/-- The ensure-all-fields loop (lines 397-399): insert the empty string for
every missing required key, in the order of `required_fields`. -/
def ensureFields (d : Record) : Record :=
  required_fields.foldl ensureStep d

/-- The last-date auto-fill step (lines 401-408): if `last_date` is empty or
contains `check`/`manual` case-insensitively, overwrite with the pre-detected
deadline if nonempty, else with the organization's known fallback deadline if
one exists, else leave the record unchanged. -/
def fixLastDate (auto_last_date detected_org : pyStr) (d : Record) : Record :=
  let v := (dictGet (S ("last_date")) d).getD []
  if v.isEmpty || strContains (pyLower v) (S ("check"))
      || strContains (pyLower v) (S ("manual")) then
    if !auto_last_date.isEmpty then dictSet (S ("last_date")) auto_last_date d
    else
      match tableGet KNOWN_LAST_DATES detected_org with
      | some fb => dictSet (S ("last_date")) fb d
      | none => d
  else d

/-- The whole per-record repair: ensure the 14 keys, then auto-fill the last
date.  (The source's salary check only prints a warning and mutates
nothing.) -/
def repairRecord (auto_last_date detected_org : pyStr) (d : Record) : Record :=
  fixLastDate auto_last_date detected_org (ensureFields d)

/-- Exact rounding of `num/den` to the nearest integer, ties to even.  The
source formats `(total - missing) / total * 100` with `%.0f`; for the
operand sizes reachable here (record counts) the IEEE-double formatting
agrees with exact rational round-half-even. -/
def roundHalfEven (num den : Nat) : Nat :=
  if den = 0 then 0
  else
    let q := num / den
    let r := num % den
    if 2 * r < den then q
    else if 2 * r > den then q + 1
    else if q % 2 = 0 then q else q + 1

/-- Percentage string `f"{num/den*100:.0f}%"`. -/
def pctStr (num den : Nat) : pyStr := natToStr (roundHalfEven (num * 100) den) ++ [ '%' ]

/-- The `extraction_quality` dictionary. -/
structure ExtractionQuality where
  last_date_coverage : pyStr
  salary_coverage : pyStr
  auto_last_date : pyStr
  date_source : pyStr
deriving DecidableEq, Repr

/-- One per-organization analysis result (the dictionary built by
`analyze_with_ultra_strict_ai` and by the placeholder branches of
`analyze_forms`). -/
structure OrgResult where
  organization : pyStr
  positions : List Record
  total_positions : Nat
  extraction_quality : ExtractionQuality
deriving DecidableEq, Repr

/-- Cleanup of the raw model response (line 378): strip code-fence markers,
then surrounding whitespace. -/
def cleanResponse (raw : pyStr) : pyStr :=
  pyStrip (pyReplaceStr (pyReplaceStr raw (S ("```json")) []) (S ("```")) [])

/-- The greedy bracket-span pattern `\[.*\]` compiled with `re.DOTALL`
(line 381): `.` matches any character including newlines. -/
def bracketSpan : RE :=
  .seq (.cls (fun c => c == '[')) (.seq (.starG (fun _ => true)) (.cls (fun c => c == ']')))

/-- Payload selection (lines 378-383): the first greedy `[...]` span of the
cleaned response if one exists, else the whole cleaned response. -/
def payloadOf (raw : pyStr) : pyStr :=
  let cleaned := cleanResponse raw
  match pySearch bracketSpan cleaned with
  | some (whole, _) => whole
  | none => cleaned

/-- Number of repaired records whose `last_date` is still empty
(line 416). -/
def countMissingDates (ps : List Record) : Nat :=
  ps.countP (fun p => ((dictGet (S ("last_date")) p).getD []).isEmpty)

/-- Number of repaired records whose `salary` is still empty (line 417). -/
def countMissingSalary (ps : List Record) : Nat :=
  ps.countP (fun p => ((dictGet (S ("salary")) p).getD []).isEmpty)

/-- `analyze_with_ultra_strict_ai(text, org_name)` from `app.py`
(lines 334-443).  `complete` abstracts prompt construction plus the
completion call (its arguments are the data the prompt embeds: document
text, resolved organization, pre-detected deadline); `parse` abstracts
`json.loads`, with `none` for a decode error; `now` feeds the date
heuristic.  `Except.error` carries the `HTTPException` detail string: a
decode failure surfaces as `AI response parsing failed`, and an empty
parsed array hits the source's `ZeroDivisionError` in the coverage
computation, surfacing as a generic analysis failure. -/
def analyze_with_ultra_strict_ai
    (complete : pyStr → pyStr → pyStr → pyStr)
    (parse : pyStr → Option (List Record))
    (now : DateT) (text : pyStr) (org_name : pyStr) : Except pyStr OrgResult :=
  let detected_org := detect_organization_from_text text org_name
  let ad := extract_last_date_comprehensive now text detected_org
  let auto_last_date := ad.1
  let raw := complete text detected_org auto_last_date
  match parse (payloadOf raw) with
  | none => .error (S ("AI response parsing failed"))
  | some positions =>
    let fixed := positions.map (repairRecord auto_last_date detected_org)
    let total := fixed.length
    if total = 0 then .error (S ("Analysis failed: division by zero"))
    else
      .ok
        { organization := detected_org
        , positions := fixed
        , total_positions := total
        , extraction_quality :=
          { last_date_coverage := pctStr (total - countMissingDates fixed) total
          , salary_coverage := pctStr (total - countMissingSalary fixed) total
          , auto_last_date := auto_last_date
          , date_source := ad.2 } }

/-!
The batch endpoint `analyze_forms`.  Each uploaded file is modelled by its
filename and the outcome of the external PDF text extraction (`Except`
models the `HTTPException` raised on an unreadable document); the AI stage
is passed in as the abstract `ai` function so the endpoint logic can be
stated independently of the completion service.
-/

/-- `required_orgs` from `app.py` (line 576), in canonical order. -/
def required_orgs : List pyStr :=
  [S ("AAU"), S ("CSIR"), S ("NHM"), S ("NTPC"), S ("TANUVAS")]

/-- Python `a or b` on strings: `b` if `a` is empty. -/
def pyOrElse (a b : pyStr) : pyStr := if a.isEmpty then b else a

/-- The filename-based organization guess (lines 596-601): first required
organization whose lowercase id occurs in the lowercase filename. -/
def orgFromFilename (filename : pyStr) : pyStr :=
  let fl := pyLower filename
  match required_orgs.find? (fun org => strContains fl (pyLower org)) with
  | some org => org
  | none => []

/-- The all-`CHECK PDF MANUALLY` placeholder for an empty or unreadable-but-
extracted document (lines 612-637). -/
def emptyPdfPlaceholder (detected_org : pyStr) : OrgResult :=
  let c := S ("CHECK PDF MANUALLY")
  { organization := detected_org
  , positions :=
    [ [ (S ("advertisement_number"), c), (S ("advertisement_date"), c)
      , (S ("post_name"), c), (S ("vacancies"), c), (S ("last_date"), c)
      , (S ("salary"), c), (S ("location"), c), (S ("age_limit"), c)
      , (S ("category"), c), (S ("qualification"), c), (S ("mandatory"), c)
      , (S ("specialization"), c), (S ("experience_years"), c)
      , (S ("remarks"),
          S ("Document was empty or unreadable. Please verify all details from the original PDF.")) ] ]
  , total_positions := 1
  , extraction_quality :=
    { last_date_coverage := S ("0%"), salary_coverage := S ("0%")
    , auto_last_date := [], date_source := S ("empty PDF") } }

/-- The error placeholder produced by the per-file `except` branch
(lines 646-671); `e` is the stringified exception. -/
def errorPlaceholder (detected_org e : pyStr) : OrgResult :=
  { organization := detected_org
  , positions :=
    [ [ (S ("advertisement_number"), S ("EXTRACTION FAILED"))
      , (S ("advertisement_date"), [])
      , (S ("post_name"), S ("EXTRACTION FAILED - See error"))
      , (S ("vacancies"), []), (S ("last_date"), []), (S ("salary"), [])
      , (S ("location"), []), (S ("age_limit"), []), (S ("category"), [])
      , (S ("qualification"), []), (S ("mandatory"), [])
      , (S ("specialization"), []), (S ("experience_years"), [])
      , (S ("remarks"), S ("Error during extraction: ") ++ e) ] ]
  , total_positions := 1
  , extraction_quality :=
    { last_date_coverage := S ("0%"), salary_coverage := S ("0%")
    , auto_last_date := [], date_source := S ("error") } }

/-- The backfill placeholder for a required organization with no processed
result (lines 677-697). -/
def missingOrgPlaceholder (req_org : pyStr) : OrgResult :=
  { organization := req_org
  , positions :=
    [ [ (S ("advertisement_number"), req_org ++ S (" - NOT PROCESSED"))
      , (S ("advertisement_date"), [])
      , (S ("post_name"), req_org ++ S (" - PDF not uploaded or failed"))
      , (S ("vacancies"), [])
      , (S ("last_date"), (tableGet KNOWN_LAST_DATES req_org).getD [])
      , (S ("salary"), []), (S ("location"), []), (S ("age_limit"), [])
      , (S ("category"), []), (S ("qualification"), []), (S ("mandatory"), [])
      , (S ("specialization"), []), (S ("experience_years"), [])
      , (S ("remarks"),
          S ("PDF for ") ++ req_org
            ++ S (" was not uploaded or failed to process. Please fill manually from original PDF.")) ] ]
  , total_positions := 1
  , extraction_quality :=
    { last_date_coverage := S ("0%"), salary_coverage := S ("0%")
    , auto_last_date := [], date_source := S ("not uploaded") } }

/-- One uploaded file: its name and the outcome of the external PDF text
extraction (`Except.error` models the `HTTPException` the extractor raises
on unreadable input, caught by the loop's `except`). -/
structure UploadedFile where
  filename : pyStr
  extracted : Except pyStr pyStr
deriving Repr

/-- The body of the per-file loop of `analyze_forms` (lines 586-671) for the
file at position `idx`; `orgNames` is the caller's parsed organization-hint
list, `ai` the AI stage.  `none` models `continue` on a non-PDF filename;
every other outcome appends one result.  The structure makes the control
flow of the source explicit: documents whose stripped text is shorter than
100 characters short-circuit to a placeholder before `ai` can be consulted,
and any per-file exception (extraction or AI) becomes an error placeholder. -/
def processFile (ai : pyStr → pyStr → Except pyStr OrgResult)
    (orgNames : List pyStr) (idx : Nat) (file : UploadedFile) : Option OrgResult :=
  if !strHasSuffix file.filename (S (".pdf")) then none
  else
    match file.extracted with
    | .error e =>
      some (errorPlaceholder (pyOrElse (orgNames.getD idx []) (S ("Organization_") ++ natToStr (idx + 1))) e)
    | .ok pdf_text =>
      let org_from_filename := orgFromFilename file.filename
      let provided_name := (orgNames[idx]?).getD org_from_filename
      if (pyStrip pdf_text).length < 100 then
        some (emptyPdfPlaceholder
          (pyOrElse provided_name
            (pyOrElse org_from_filename (S ("Organization_") ++ natToStr (idx + 1)))))
      else
        match ai pdf_text provided_name with
        | .ok analysis => some analysis
        | .error e =>
          some (errorPlaceholder
            (pyOrElse (orgNames.getD idx []) (S ("Organization_") ++ natToStr (idx + 1))) e)

/-- `org_sort_key` from `app.py` (lines 700-704): canonical index for
required organizations, 999 otherwise. -/
def orgSortKey (r : OrgResult) : Nat :=
  match required_orgs.indexOf? r.organization with
  | some i => i
  | none => 999

/-- Stable insertion into a key-sorted list (an element goes before the
first strictly greater key, hence after earlier equal keys). -/
def sortedInsert (x : OrgResult) : List OrgResult → List OrgResult
  | [] => [x]
  | y :: ys => if orgSortKey x ≤ orgSortKey y then x :: y :: ys else y :: sortedInsert x ys

/-- Stable sort by `orgSortKey`, modelling Python's stable `list.sort`. -/
def sortByKey : List OrgResult → List OrgResult
  | [] => []
  | x :: xs => sortedInsert x (sortByKey xs)

/-- The report-assembly tail of `analyze_forms` (lines 673-706): append a
backfill placeholder for every required organization with no processed
result (the `processed_orgs` set is exactly the set of organizations of the
accumulated results), then sort by `org_sort_key`. -/
def assembleReport (rs : List OrgResult) : List OrgResult :=
  let processed := rs.map (fun r => r.organization)
  let backfill :=
    (required_orgs.filter (fun o => !processed.contains o)).map missingOrgPlaceholder
  sortByKey (rs ++ backfill)

/-- Worker: enumerate files with their indices. -/
def enumFrom (n : Nat) : List UploadedFile → List (Nat × UploadedFile)
  | [] => []
  | f :: fs => (n, f) :: enumFrom (n + 1) fs

/-- The per-document results accumulated by the loop of `analyze_forms`. -/
def processedResults (ai : pyStr → pyStr → Except pyStr OrgResult)
    (orgNames : List pyStr) (files : List UploadedFile) : List OrgResult :=
  (enumFrom 0 files).filterMap (fun p => processFile ai orgNames p.1 p.2)

/-- The `/analyze` endpoint `analyze_forms` (lines 556-729), up to the
spreadsheet serialization: reject an empty upload batch, process each file
in order, backfill the required organizations and sort.  (The
`mistral_client` configuration check is a service precondition outside this
model, and `organizations` arrives already JSON-parsed as `orgNames`.) -/
def analyze_forms (ai : pyStr → pyStr → Except pyStr OrgResult)
    (orgNames : List pyStr) (files : List UploadedFile) :
    Except pyStr (List OrgResult) :=
  if files.isEmpty then .error (S ("No files uploaded"))
  else .ok (assembleReport (processedResults ai orgNames files))

/-!  Helper lemmas about the string primitives, feeding the claim theorems. -/

lemma digit_cases {c : Char} (h : isDigitCh c = true) :
    c = '0' ∨ c = '1' ∨ c = '2' ∨ c = '3' ∨ c = '4' ∨ c = '5' ∨ c = '6' ∨ c = '7'
      ∨ c = '8' ∨ c = '9' := by
  simp [isDigitCh] at h
  tauto

lemma digit_not {c : Char} (h : isDigitCh c = true) :
    ((c == '/') = false) ∧ ((c == '.') = false) ∧ ((c == '-') = false)
      ∧ ((c == '+') = false) ∧ ((c == '_') = false) ∧ (isSpaceChar c = false) := by
  rcases digit_cases h with rfl | rfl | rfl | rfl | rfl | rfl | rfl | rfl | rfl | rfl <;> decide

lemma dropWhile_no {p : Char → Bool} {xs : pyStr} (h : ∀ x ∈ xs, p x = false) :
    xs.dropWhile p = xs := by
  cases xs with
  | nil => rfl
  | cons c rest => simp [List.dropWhile_cons, h c (List.mem_cons_self c rest)]

lemma pyStrip_no {xs : pyStr} (h : ∀ x ∈ xs, isSpaceChar x = false) : pyStrip xs = xs := by
  unfold pyStrip
  rw [dropWhile_no h, dropWhile_no (fun x hx => h x (List.mem_reverse.mp hx)),
    List.reverse_reverse]

lemma getLastD_mem : ∀ (xs : pyStr) (d : Char), xs ≠ [] → xs.getLastD d ∈ xs
  | [], _, h => absurd rfl h
  | [x], d, _ => by simp
  | x :: y :: rest, d, _ => by
    have h := getLastD_mem (y :: rest) x (by simp)
    have e : (x :: y :: rest).getLastD d = (y :: rest).getLastD x := by
      simp [List.getLastD]
    rw [e]
    exact List.mem_cons_of_mem _ h

lemma no_dunder : ∀ {xs : pyStr}, xs.all isDigitCh = true → hasDoubleUnderscore xs = false
  | [], _ => rfl
  | [_], _ => rfl
  | a :: b :: rest, h => by
    have ha : isDigitCh a = true := by simp [List.all_cons] at h; exact h.1
    have hrest : (b :: rest).all isDigitCh = true := by simp [List.all_cons] at h ⊢; exact h.2
    simp [hasDoubleUnderscore, (digit_not ha).2.2.2.2.1, no_dunder hrest]

lemma pyInt_digits {xs : pyStr} (h : xs.all isDigitCh = true) (hne : xs ≠ []) :
    pyInt xs = some (digVal xs) := by
  have hall := List.all_eq_true.mp h
  obtain ⟨c, rest, rfl⟩ := List.exists_cons_of_ne_nil hne
  have hc : isDigitCh c = true := hall c (List.mem_cons_self c rest)
  have hfil : (c :: rest).filter (fun x => !(x == '_')) = c :: rest :=
    List.filter_eq_self.mpr (fun x hx => by simp [(digit_not (hall x hx)).2.2.2.2.1])
  have hlast : isDigitCh ((c :: rest).getLast?.getD ' ') = true := by
    rw [← List.getLastD_eq_getLast?]
    exact hall _ (getLastD_mem (c :: rest) ' ' (by simp))
  have hallu : (c :: rest).all (fun x => isDigitCh x || (x == '_')) = true :=
    List.all_eq_true.mpr (fun x hx => by simp [hall x hx])
  simp [pyInt, pyStrip_no (fun x hx => (digit_not (hall x hx)).2.2.2.2.2),
    (digit_not hc).2.2.2.1, hallu, hc, hlast, no_dunder h, hfil]

/-- The composed separator-replacement map of `normalize_date`. -/
def sepRep (c : Char) : Char :=
  (fun c => if c == '.' then '-' else c) ((fun c => if c == '/' then '-' else c) c)

lemma sepRep_digit {c : Char} (h : isDigitCh c = true) : sepRep c = c := by
  rcases digit_cases h with rfl | rfl | rfl | rfl | rfl | rfl | rfl | rfl | rfl | rfl <;> rfl

lemma sepRep_sep {c : Char} (h : sepCls c = true) : sepRep c = '-' := by
  have : c = '-' ∨ c = '.' ∨ c = '/' := by
    simp [sepCls] at h
    tauto
  rcases this with rfl | rfl | rfl <;> rfl

lemma replace_as_map (s : pyStr) :
    pyReplaceChar '.' '-' (pyReplaceChar '/' '-' s) = s.map sepRep := by
  unfold pyReplaceChar
  rw [List.map_map]
  rfl

lemma map_sepRep_digits {xs : pyStr} (h : xs.all isDigitCh = true) : xs.map sepRep = xs := by
  have hall := List.all_eq_true.mp h
  calc xs.map sepRep = xs.map id := List.map_congr_left (fun c hc => sepRep_digit (hall c hc))
    _ = xs := List.map_id xs

lemma pySplit_append {sep : Char} {a : pyStr} (rest : pyStr)
    (h : ∀ x ∈ a, (x == sep) = false) :
    pySplit sep (a ++ sep :: rest) = a :: pySplit sep rest := by
  induction a with
  | nil => simp [pySplit]
  | cons x a' ih =>
    have hx := h x (List.mem_cons_self x a')
    have h' : ∀ y ∈ a', (y == sep) = false := fun y hy => h y (List.mem_cons_of_mem _ hy)
    simp [pySplit, hx, ih h']

lemma pySplit_nosep {sep : Char} {a : pyStr} (h : ∀ x ∈ a, (x == sep) = false) :
    pySplit sep a = [a] := by
  induction a with
  | nil => rfl
  | cons x a' ih =>
    have hx := h x (List.mem_cons_self x a')
    have h' : ∀ y ∈ a', (y == sep) = false := fun y hy => h y (List.mem_cons_of_mem _ hy)
    simp [pySplit, hx, ih h']

lemma digVal_go (xs : pyStr) :
    ∀ a : Nat, xs.foldl (fun a c => 10 * a + (c.toNat - 48)) a
      = a * 10 ^ xs.length + digVal xs := by
  induction xs with
  | nil => intro a; simp [digVal]
  | cons c rest ih =>
    intro a
    have hv : digVal (c :: rest) = (c.toNat - 48) * 10 ^ rest.length + digVal rest := by
      show List.foldl _ (10 * 0 + (c.toNat - 48)) rest = _
      rw [ih]
      ring_nf
    simp only [List.foldl_cons]
    rw [ih, hv, List.length_cons]
    ring

lemma digVal_zero_cons (xs : pyStr) : digVal ('0' :: xs) = digVal xs := rfl

lemma zfill2_one {c : Char} (h : isDigitCh c = true) : pyZfill 2 [c] = ['0', c] := by
  rcases digit_cases h with rfl | rfl | rfl | rfl | rfl | rfl | rfl | rfl | rfl | rfl <;> rfl

lemma zfill2_two {ds : pyStr} (h : ds.length = 2) : pyZfill 2 ds = ds := by
  simp [pyZfill, h]

lemma pyInt_zfill2 {ds : pyStr} (h : ds.all isDigitCh = true)
    (hl : ds.length = 1 ∨ ds.length = 2) :
    pyInt (pyZfill 2 ds) = some (digVal ds) := by
  rcases hl with h1 | h2
  · obtain ⟨c, rfl⟩ := List.length_eq_one.mp h1
    have hc : isDigitCh c = true := by simpa using h
    rw [zfill2_one hc, pyInt_digits (by simp [hc]; rfl) (by simp)]
    rfl
  · rw [zfill2_two h2]
    exact pyInt_digits h (by intro h0; rw [h0] at h2; simp at h2)

lemma pyInt_year {ys : pyStr} (h : ys.all isDigitCh = true)
    (hl : ys.length = 2 ∨ ys.length = 4) :
    pyInt (if ys.length = 2 then '2' :: '0' :: ys else ys)
      = some (if ys.length = 2 then 2000 + digVal ys else digVal ys) := by
  rcases hl with h2 | h4
  · rw [if_pos h2, if_pos h2, pyInt_digits (by simp [isDigitCh, h]) (by simp)]
    congr 1
    show List.foldl _ _ ('0' :: ys) = _
    show List.foldl _ _ ys = _
    rw [digVal_go, h2]
    norm_num
    decide
  · have hne : ys.length ≠ 2 := by omega
    rw [if_neg hne, if_neg hne]
    exact pyInt_digits h (by intro h0; rw [h0] at h4; simp at h4)

/-- C4: for every input of the form day-sep-month-sep-year with separator
`-`, `.` or `/`, a 1-2 digit day and month and a 2- or 4-digit year,
`normalize_date` returns the canonical zero-padded `DD-MM-YYYY` string
(expanding a 2-digit year by prefixing `20`) exactly when day∈[1,31],
month∈[1,12] and the expanded year∈[2024,2026], and returns the empty
string for any such input with a value outside those ranges; any input at
all that does not split into exactly 3 parts also yields the empty string.
The embedding is a total function: the `except` in the source catches every
`ValueError`, so no exception escapes. -/
theorem c4_date_normalizer :
    (∀ (ds ms ys : pyStr) (s1 s2 : Char),
      ds.all isDigitCh = true → ms.all isDigitCh = true → ys.all isDigitCh = true →
      (ds.length = 1 ∨ ds.length = 2) → (ms.length = 1 ∨ ms.length = 2) →
      (ys.length = 2 ∨ ys.length = 4) →
      sepCls s1 = true → sepCls s2 = true →
      normalize_date (ds ++ (s1 :: (ms ++ (s2 :: ys)))) =
        (if 1 ≤ digVal ds ∧ digVal ds ≤ 31 ∧ 1 ≤ digVal ms ∧ digVal ms ≤ 12
            ∧ 2024 ≤ (if ys.length = 2 then 2000 + digVal ys else digVal ys)
            ∧ (if ys.length = 2 then 2000 + digVal ys else digVal ys) ≤ 2026 then
          pyZfill 2 ds ++ '-' :: pyZfill 2 ms ++ '-'
            :: (if ys.length = 2 then '2' :: '0' :: ys else ys)
        else []))
  ∧ (∀ s : pyStr,
      (pySplit '-' (pyReplaceChar '.' '-' (pyReplaceChar '/' '-' s))).length ≠ 3 →
      normalize_date s = []) := by
  constructor
  · intro ds ms ys s1 s2 hd hm hy hdl hml hyl hs1 hs2
    have hdall := List.all_eq_true.mp hd
    have hmall := List.all_eq_true.mp hm
    have hyall := List.all_eq_true.mp hy
    have hnd : ∀ x ∈ ds, (x == '-') = false := fun x hx => (digit_not (hdall x hx)).2.2.1
    have hnm : ∀ x ∈ ms, (x == '-') = false := fun x hx => (digit_not (hmall x hx)).2.2.1
    have hny : ∀ x ∈ ys, (x == '-') = false := fun x hx => (digit_not (hyall x hx)).2.2.1
    have hrep : pyReplaceChar '.' '-' (pyReplaceChar '/' '-' (ds ++ (s1 :: (ms ++ (s2 :: ys)))))
        = ds ++ ('-' :: (ms ++ ('-' :: ys))) := by
      rw [replace_as_map, List.map_append, List.map_cons, List.map_append, List.map_cons,
        map_sepRep_digits hd, map_sepRep_digits hm, map_sepRep_digits hy,
        sepRep_sep hs1, sepRep_sep hs2]
    have hsplit : pySplit '-' (ds ++ ('-' :: (ms ++ ('-' :: ys)))) = [ds, ms, ys] := by
      rw [pySplit_append (ms ++ '-' :: ys) hnd, pySplit_append ys hnm, pySplit_nosep hny]
    simp only [normalize_date]
    rw [hrep, hsplit, if_neg (by simp)]
    dsimp only
    rw [pyInt_zfill2 hd hdl, pyInt_zfill2 hm hml, pyInt_year hy hyl]
  · intro s hlen
    simp only [normalize_date]
    rw [if_pos hlen]

/-- C4 witness: `1/5/25` normalizes to `01-05-2025`, and the out-of-range
form `9-13-2025` (month 13) normalizes to the empty string. -/
theorem c4_date_normalizer_wit :
    normalize_date (S ("1/5/25")) = S ("01-05-2025")
      ∧ normalize_date (S ("9-13-2025")) = [] := by
  constructor
  · have h := c4_date_normalizer.1 (S ("1")) (S ("5")) (S ("25")) '/' '/'
      (by decide) (by decide) (by decide) (by decide) (by decide) (by decide)
      (by decide) (by decide)
    exact h.trans (by decide)
  · have h := c4_date_normalizer.1 (S ("9")) (S ("13")) (S ("2025")) '-' '-'
      (by decide) (by decide) (by decide) (by decide) (by decide) (by decide)
      (by decide) (by decide)
    exact h.trans (by decide)

/-- C7: resolving an already-canonical organization id given as the
caller-provided name returns the same id, whatever the document text
(the provided-name branch answers before the text is ever consulted). -/
theorem c7_resolver_idempotent :
    (∀ text : pyStr, detect_organization_from_text text (S ("AAU")) = S ("AAU"))
  ∧ (∀ text : pyStr, detect_organization_from_text text (S ("CSIR")) = S ("CSIR"))
  ∧ (∀ text : pyStr, detect_organization_from_text text (S ("NHM")) = S ("NHM"))
  ∧ (∀ text : pyStr, detect_organization_from_text text (S ("NTPC")) = S ("NTPC"))
  ∧ (∀ text : pyStr, detect_organization_from_text text (S ("TANUVAS")) = S ("TANUVAS")) :=
  ⟨fun _ => rfl, fun _ => rfl, fun _ => rfl, fun _ => rfl, fun _ => rfl⟩

/-- C7 witness: idempotence at a concrete text for NTPC. -/
theorem c7_resolver_idempotent_wit :
    detect_organization_from_text (S ("some document text")) (S ("NTPC")) = S ("NTPC") :=
  c7_resolver_idempotent.2.2.2.1 (S ("some document text"))

/-- C6: the resolution steps of `detect_organization_from_text` apply in
strict priority order.  An active (nonempty, non-placeholder) caller hint is
checked against every keyword and, failing that, returned stripped and
uppercased, without ever consulting the document; only for an inactive hint
is the 500-character header zone scanned, then the full text, then the
fallback returned. -/
theorem c6_resolver_priority :
    ∀ (text provided : pyStr),
      (providedActive provided = true →
        (∀ org,
          lookupFirstSub ORGANIZATION_MAPPINGS (pyLower (pyUpper (pyStrip provided)))
              = some org →
            detect_organization_from_text text provided = org)
        ∧ (lookupFirstSub ORGANIZATION_MAPPINGS (pyLower (pyUpper (pyStrip provided)))
              = none →
            detect_organization_from_text text provided = pyUpper (pyStrip provided)))
      ∧ (providedActive provided = false →
        (∀ org,
          lookupFirstSub ORGANIZATION_MAPPINGS (pyLower (List.take 500 text)) = some org →
            detect_organization_from_text text provided = org)
        ∧ (lookupFirstSub ORGANIZATION_MAPPINGS (pyLower (List.take 500 text)) = none →
          (∀ org, lookupFirstSub ORGANIZATION_MAPPINGS (pyLower text) = some org →
              detect_organization_from_text text provided = org)
          ∧ (lookupFirstSub ORGANIZATION_MAPPINGS (pyLower text) = none →
              detect_organization_from_text text provided =
                (if !provided.isEmpty then provided else S ("Unknown Organization"))))) := by
  intro text provided
  constructor
  · intro hact
    constructor
    · intro org horg
      simp [detect_organization_from_text, hact, horg]
    · intro hnone
      simp [detect_organization_from_text, hact, hnone]
  · intro hinact
    constructor
    · intro org horg
      simp [detect_organization_from_text, hinact, horg]
    · intro hnone
      constructor
      · intro org horg
        simp [detect_organization_from_text, hinact, hnone, horg]
      · intro hfull
        simp [detect_organization_from_text, hinact, hnone, hfull]

/-- Document text for the C6 scenario: `NTPC` inside the first 500
characters, `csir` only past the 500-character header zone. -/
def c6HeaderText : pyStr :=
  S ("NTPC recruitment notice. ") ++ List.replicate 500 'x'
    ++ S (" csir appears only in the body.")

/-- C6 witness: with no caller hint, `NTPC` in the header and `csir` only in
the body, the resolver answers NTPC from the header scan. -/
theorem c6_resolver_priority_wit :
    detect_organization_from_text c6HeaderText [] = S ("NTPC")
      ∧ strContains (pyLower (List.take 500 c6HeaderText)) (S ("csir")) = false
      ∧ strContains (pyLower c6HeaderText) (S ("csir")) = true := by
  refine ⟨?_, by decide, by decide⟩
  exact ((c6_resolver_priority c6HeaderText []).2 (by decide)).1 (S ("NTPC")) (by decide)

/-- The Method 1 loop returns the result of the first pattern that
succeeds, provided all earlier patterns fail. -/
lemma scanPatterns_first {text : pyStr} :
    ∀ (ps : List (RE × pyStr)) (i : Nat) (pr : RE × pyStr) (r : pyStr × pyStr),
      ps[i]? = some pr → tryPattern text pr = some r →
      (∀ j, j < i → ∀ pr', ps[j]? = some pr' → tryPattern text pr' = none) →
      scanPatterns text ps = some r := by
  intro ps
  induction ps with
  | nil => intro i pr r h; simp at h
  | cons hd tl ih =>
    intro i pr r hget htry hprev
    cases i with
    | zero =>
      simp at hget
      subst hget
      simp [scanPatterns, htry]
    | succ n =>
      have h0 : tryPattern text hd = none := hprev 0 (Nat.succ_pos n) hd (by simp)
      simp only [scanPatterns, h0]
      exact ih n pr r (by simpa using hget) htry
        (fun j hj pr' hget' => hprev (j + 1) (by omega) pr' (by simpa using hget'))

/-- C5: the deadline extractor's keyword cascade tries `date_patterns` in
their fixed order; for each pattern all non-overlapping matches are
collected in document order and the last occurrence is normalized, and the
first pattern whose last match normalizes successfully decides the result
of the whole extractor — the later strategies (line scan, known fallback,
heuristic scan) are not consulted, and the returned source label is that
pattern's cascade label. -/
theorem c5_cascade_first_success :
    (∀ (now : DateT) (text org : pyStr) (i : Nat) (pr : RE × pyStr) (r : pyStr × pyStr),
      date_patterns[i]? = some pr →
      tryPattern text pr = some r →
      (∀ j, j < i → ∀ pr', date_patterns[j]? = some pr' → tryPattern text pr' = none) →
      extract_last_date_comprehensive now text org = r
        ∧ r = (normalize_date (((pyFindall pr.1 text).getLast?).getD []), pr.2))
    ∧ (∀ (now : DateT) (text org : pyStr),
      (∀ r, scanPatterns text date_patterns = some r →
          extract_last_date_comprehensive now text org = r)
      ∧ (scanPatterns text date_patterns = none →
        (∀ r, sectionScan (pySplit '\n' text) = some r →
            extract_last_date_comprehensive now text org = r)
        ∧ (sectionScan (pySplit '\n' text) = none →
          (∀ d, tableGet KNOWN_LAST_DATES org = some d →
              extract_last_date_comprehensive now text org = (d, S ("known fallback")))
          ∧ (tableGet KNOWN_LAST_DATES org = none →
            (∀ r, heuristicScan now (pyFindall dateShape4 text) = some r →
                extract_last_date_comprehensive now text org = r)
            ∧ (heuristicScan now (pyFindall dateShape4 text) = none →
                extract_last_date_comprehensive now text org
                  = ([], S ("not found"))))))) := by
  constructor
  · intro now text org i pr r hget htry hprev
    have h1 : scanPatterns text date_patterns = some r :=
      scanPatterns_first date_patterns i pr r hget htry hprev
    constructor
    · simp [extract_last_date_comprehensive, h1]
    · unfold tryPattern at htry
      rcases hlast : (pyFindall pr.1 text).getLast? with _ | last
      · rw [hlast] at htry
        simp at htry
      · rw [hlast] at htry
        by_cases hn : (normalize_date last).isEmpty
        · simp [hn] at htry
        · simp [hn] at htry
          simp [← htry, hlast]
  · intro now text org
    refine ⟨fun r h1 => by simp [extract_last_date_comprehensive, h1], fun h1 => ⟨?_, ?_⟩⟩
    · intro r h2
      simp [extract_last_date_comprehensive, h1, h2]
    · intro h2
      refine ⟨?_, fun h3 => ⟨?_, fun h4 => by
        simp [extract_last_date_comprehensive, h1, h2, h3, h4]⟩⟩
      · intro d h3
        simp [extract_last_date_comprehensive, h1, h2, h3]
      · intro r h4
        simp [extract_last_date_comprehensive, h1, h2, h3, h4]

/-- Document text for the C5 scenario: an unrelated earlier date plus a
`Last date:` phrase. -/
def c5KeywordText : pyStr := S ("Published on 01-01-2025. Last date: 01-05-2025.")

/-- C5 witness: on text with an unrelated earlier date and a
`last date: 01-05-2025` phrase, the first cascade pattern wins and the
extractor returns `01-05-2025` labelled `last date keyword` (not the
heuristic scan's label). -/
theorem c5_cascade_first_success_wit :
    extract_last_date_comprehensive (2025, 1, 1) c5KeywordText []
      = (S ("01-05-2025"), S ("last date keyword")) := by
  have h := c5_cascade_first_success.1 (2025, 1, 1) c5KeywordText [] 0
    (seqAll [litCI ("last"), wsPlus, litCI ("date"), lazyDots, .grp dateShape24],
      S ("last date keyword"))
    (S ("01-05-2025"), S ("last date keyword"))
    rfl (by decide) (fun j hj pr' _ => absurd hj (by omega))
  exact h.1

/-- C8: in the post-extraction repair, a record whose `last_date` is empty
or contains `check` or `manual` (case-insensitively) has the field
overwritten with the pre-detected deadline when that is nonempty, else with
the organization's known fallback deadline when one exists, and is left
unchanged otherwise; a record whose `last_date` is nonempty and free of
both markers is not modified at all by this step. -/
theorem c8_last_date_autofill :
    ∀ (auto org : pyStr) (rec : Record) (v : pyStr),
      dictGet (S ("last_date")) rec = some v →
      (((v.isEmpty || strContains (pyLower v) (S ("check"))
          || strContains (pyLower v) (S ("manual"))) = true →
        ((!auto.isEmpty) = true →
            fixLastDate auto org rec = dictSet (S ("last_date")) auto rec)
        ∧ (auto = [] → ∀ fb, tableGet KNOWN_LAST_DATES org = some fb →
            fixLastDate auto org rec = dictSet (S ("last_date")) fb rec)
        ∧ (auto = [] → tableGet KNOWN_LAST_DATES org = none →
            fixLastDate auto org rec = rec))
      ∧ ((v.isEmpty || strContains (pyLower v) (S ("check"))
          || strContains (pyLower v) (S ("manual"))) = false →
        fixLastDate auto org rec = rec)) := by
  intro auto org rec v hv
  constructor
  · intro hcond
    refine ⟨fun hauto => ?_, fun hauto fb hfb => ?_, fun hauto hnofb => ?_⟩
    · simp [fixLastDate, hv, hcond, hauto]
    · subst hauto
      simp [fixLastDate, hv, hcond, hfb]
    · subst hauto
      simp [fixLastDate, hv, hcond, hnofb]
  · intro hcond
    simp [fixLastDate, hv, hcond]

/-- C8 witness: a record whose `last_date` says `CHECK PDF MANUALLY` is
overwritten with the pre-detected deadline `01-05-2025`. -/
theorem c8_last_date_autofill_wit :
    fixLastDate (S ("01-05-2025")) (S ("NTPC"))
        [(S ("last_date"), S ("CHECK PDF MANUALLY"))]
      = [(S ("last_date"), S ("01-05-2025"))] := by
  have h := ((c8_last_date_autofill (S ("01-05-2025")) (S ("NTPC"))
    [(S ("last_date"), S ("CHECK PDF MANUALLY"))] (S ("CHECK PDF MANUALLY"))
    (by decide)).1 (by decide)).1 (by decide)
  exact h.trans (by decide)

/-- Organization resolved by the orchestrator for a document. -/
def orgOf (text org_name : pyStr) : pyStr := detect_organization_from_text text org_name

/-- Pre-detected deadline computed by the orchestrator for a document. -/
def autoOf (now : DateT) (text org_name : pyStr) : pyStr :=
  (extract_last_date_comprehensive now text (orgOf text org_name)).1

/-- The payload the orchestrator hands to the JSON decoder for a given
completion service. -/
def payloadFor (complete : pyStr → pyStr → pyStr → pyStr) (now : DateT)
    (text org_name : pyStr) : pyStr :=
  payloadOf (complete text (orgOf text org_name) (autoOf now text org_name))

/-- C9: when the model response — after code-fence stripping and greedy
bracket-span extraction — cannot be decoded as a structured array, the
orchestrator surfaces the fatal error `AI response parsing failed` for that
document; the `Except.error` outcome carries no partial `OrgResult`, so the
failure is not silently recovered inside the orchestrator. -/
theorem c9_parse_failure_fatal :
    ∀ (complete : pyStr → pyStr → pyStr → pyStr)
      (parse : pyStr → Option (List Record)) (now : DateT) (text org_name : pyStr),
      parse (payloadFor complete now text org_name) = none →
      analyze_with_ultra_strict_ai complete parse now text org_name
        = .error (S ("AI response parsing failed")) := by
  intro complete parse now text org_name hparse
  simp only [payloadFor, orgOf, autoOf] at hparse
  simp [analyze_with_ultra_strict_ai, hparse]

/-- C9 witness: a decoder that always fails makes the orchestrator surface
exactly the parsing-failure error. -/
theorem c9_parse_failure_fatal_wit :
    analyze_with_ultra_strict_ai (fun _ _ _ => []) (fun _ => none) (2025, 1, 1)
        (S ("x")) (S ("NTPC"))
      = .error (S ("AI response parsing failed")) :=
  c9_parse_failure_fatal (fun _ _ _ => []) (fun _ => none) (2025, 1, 1)
    (S ("x")) (S ("NTPC")) rfl

/-!  Lemmas about the dict operations, feeding the record-completeness claim. -/

lemma dictGet_some_hasKey {k : pyStr} {d : Record} {v : pyStr}
    (h : dictGet k d = some v) : dictHasKey k d = true := by
  induction d with
  | nil => simp [dictGet] at h
  | cons p rest ih =>
    obtain ⟨k', v'⟩ := p
    by_cases hk : (k' == k) = true
    · simp [dictHasKey, hk]
    · have h' : dictGet k rest = some v := by
        simp only [dictGet] at h
        rwa [if_neg hk] at h
      have h2 : dictHasKey k rest = true := ih h'
      simp only [dictHasKey] at h2 ⊢
      simp [List.any_cons, h2]

lemma dictGet_none_iff {k : pyStr} {d : Record} :
    dictGet k d = none ↔ dictHasKey k d = false := by
  induction d with
  | nil => simp [dictGet, dictHasKey]
  | cons p rest ih =>
    obtain ⟨k', v'⟩ := p
    by_cases hk : (k' == k) = true
    · simp [dictGet, dictHasKey, hk]
    · simp [dictGet, dictHasKey, hk, ih]

lemma hasKey_dictSet (k k' v : pyStr) (d : Record) :
    dictHasKey k (dictSet k' v d) = (dictHasKey k d || (k' == k)) := by
  induction d with
  | nil => simp [dictSet, dictHasKey]
  | cons p rest ih =>
    obtain ⟨k0, v0⟩ := p
    by_cases h0 : (k0 == k') = true
    · have : k0 = k' := beq_iff_eq.mp h0
      subst this
      simp only [dictSet, if_pos h0, dictHasKey, List.any_cons]
      cases hb : (k0 == k) <;> simp [hb, dictHasKey]
    · simp only [dictSet]
      rw [if_neg h0]
      simp only [dictHasKey, List.any_cons] at ih ⊢
      rw [ih, Bool.or_assoc]

lemma dictGet_dictSet_self (k v : pyStr) (d : Record) :
    dictGet k (dictSet k v d) = some v := by
  induction d with
  | nil => simp [dictSet, dictGet]
  | cons p rest ih =>
    obtain ⟨k0, v0⟩ := p
    by_cases h0 : (k0 == k) = true
    · simp [dictSet, dictGet, h0]
    · simp [dictSet, dictGet, h0, ih]

lemma dictGet_dictSet_other {k k' : pyStr} (h : ¬ k' = k) (v : pyStr) (d : Record) :
    dictGet k (dictSet k' v d) = dictGet k d := by
  induction d with
  | nil => simp [dictSet, dictGet, beq_iff_eq, h]
  | cons p rest ih =>
    obtain ⟨k0, v0⟩ := p
    by_cases h0 : (k0 == k') = true
    · have hk0 : k0 = k' := beq_iff_eq.mp h0
      subst hk0
      simp [dictSet, dictGet, h0, beq_iff_eq, h]
    · simp [dictSet, dictGet, h0, ih]

lemma foldl_ensure_hasKey {ks : List pyStr} {d : Record} {k : pyStr}
    (h : dictHasKey k d = true) : dictHasKey k (ks.foldl ensureStep d) = true := by
  induction ks generalizing d with
  | nil => simpa
  | cons k0 rest ih =>
    simp only [List.foldl_cons]
    apply ih
    unfold ensureStep
    split
    · exact h
    · rw [hasKey_dictSet]
      simp [h]

lemma foldl_ensure_mem {ks : List pyStr} {k : pyStr} (hk : k ∈ ks) :
    ∀ d : Record, dictHasKey k (ks.foldl ensureStep d) = true := by
  induction ks with
  | nil => simp at hk
  | cons k0 rest ih =>
    intro d
    simp only [List.foldl_cons]
    rcases List.mem_cons.mp hk with rfl | hmem
    · apply foldl_ensure_hasKey
      unfold ensureStep
      split
      · assumption
      · rw [hasKey_dictSet]
        simp
    · exact ih hmem _

lemma foldl_ensure_get_stable {ks : List pyStr} {d : Record} {k v : pyStr}
    (h : dictGet k d = some v) : dictGet k (ks.foldl ensureStep d) = some v := by
  induction ks generalizing d with
  | nil => simpa
  | cons k0 rest ih =>
    simp only [List.foldl_cons]
    by_cases hk0 : dictHasKey k0 d = true
    · rw [show ensureStep d k0 = d from by simp [ensureStep, hk0]]
      exact ih h
    · have hne : ¬ k0 = k := fun he => hk0 (he ▸ dictGet_some_hasKey h)
      rw [show ensureStep d k0 = dictSet k0 [] d from by simp [ensureStep, hk0]]
      exact ih (by rw [dictGet_dictSet_other hne]; exact h)

lemma foldl_ensure_get_missing {ks : List pyStr} {k : pyStr} (hk : k ∈ ks) :
    ∀ {d : Record}, dictHasKey k d = false → dictGet k (ks.foldl ensureStep d) = some [] := by
  induction ks with
  | nil => simp at hk
  | cons k0 rest ih =>
    intro d h
    simp only [List.foldl_cons]
    by_cases he : k0 = k
    · subst he
      rw [show ensureStep d k0 = dictSet k0 [] d from by simp [ensureStep, h]]
      exact foldl_ensure_get_stable (dictGet_dictSet_self k0 [] d)
    · have hmem : k ∈ rest := by
        rcases List.mem_cons.mp hk with rfl | hm
        · exact absurd rfl he
        · exact hm
      by_cases hk0 : dictHasKey k0 d = true
      · rw [show ensureStep d k0 = d from by simp [ensureStep, hk0]]
        exact ih hmem h
      · rw [show ensureStep d k0 = dictSet k0 [] d from by simp [ensureStep, hk0]]
        apply ih hmem
        rw [hasKey_dictSet, h]
        simp [beq_eq_false_iff_ne.mpr he]

/-- The auto-fill step either leaves the record alone or writes the
`last_date` key. -/
lemma fixLastDate_cases (auto org : pyStr) (d : Record) :
    fixLastDate auto org d = d
      ∨ ∃ x, fixLastDate auto org d = dictSet (S ("last_date")) x d := by
  by_cases hcond : ((((dictGet (S ("last_date")) d).getD []).isEmpty
      || strContains (pyLower ((dictGet (S ("last_date")) d).getD [])) (S ("check"))
      || strContains (pyLower ((dictGet (S ("last_date")) d).getD [])) (S ("manual"))) = true)
  · by_cases hauto : ((!auto.isEmpty) = true)
    · exact Or.inr ⟨auto, by rw [fixLastDate, if_pos hcond, if_pos hauto]⟩
    · cases htb : tableGet KNOWN_LAST_DATES org with
      | none =>
        exact Or.inl (by rw [fixLastDate, if_pos hcond, if_neg hauto, htb])
      | some fb =>
        exact Or.inr ⟨fb, by rw [fixLastDate, if_pos hcond, if_neg hauto, htb]⟩
  · exact Or.inl (by rw [fixLastDate, if_neg hcond])

lemma ensureFields_hasKey {k : pyStr} (hk : k ∈ required_fields) (d : Record) :
    dictHasKey k (ensureFields d) = true := by
  unfold ensureFields
  exact foldl_ensure_mem hk d

lemma repairRecord_hasKey {k : pyStr} (hk : k ∈ required_fields) (auto org : pyStr)
    (d : Record) : dictHasKey k (repairRecord auto org d) = true := by
  unfold repairRecord
  rcases fixLastDate_cases auto org (ensureFields d) with he | ⟨x, he⟩
  · rw [he]
    exact ensureFields_hasKey hk d
  · rw [he, hasKey_dictSet]
    simp [ensureFields_hasKey hk d]

lemma repairRecord_get_other {k : pyStr} (hk : k ∈ required_fields)
    (hne : k ≠ S ("last_date")) (auto org : pyStr) (d : Record) :
    dictGet k (repairRecord auto org d) = some ((dictGet k d).getD []) := by
  unfold repairRecord
  have hfix : dictGet k (fixLastDate auto org (ensureFields d))
      = dictGet k (ensureFields d) := by
    rcases fixLastDate_cases auto org (ensureFields d) with he | ⟨x, he⟩
    · rw [he]
    · rw [he, dictGet_dictSet_other (fun hld => hne hld.symm)]
  rw [hfix]
  unfold ensureFields
  cases hget : dictGet k d with
  | some v =>
    simpa using foldl_ensure_get_stable hget
  | none =>
    simpa using foldl_ensure_get_missing hk (dictGet_none_iff.mp hget)

/-- C2 (amended): every record set returned by the orchestrator has all 14
required keys present in every record (keys beyond the 14 returned by the
model are retained, so a record can carry more than 14 keys); every missing
required key other than `last_date` is inserted with the empty string
(`last_date` may additionally be overwritten by the deadline auto-fill),
present keys other than `last_date` keep their value, and no record is
dropped: the output has exactly one repaired record per parsed record. -/
theorem c2_record_completeness :
    ∀ (complete : pyStr → pyStr → pyStr → pyStr) (parse : pyStr → Option (List Record))
      (now : DateT) (text org_name : pyStr) (ps : List Record) (res : OrgResult),
      parse (payloadFor complete now text org_name) = some ps →
      analyze_with_ultra_strict_ai complete parse now text org_name = .ok res →
      res.positions = ps.map (repairRecord (autoOf now text org_name) (orgOf text org_name))
      ∧ res.positions.length = ps.length
      ∧ (∀ rec ∈ res.positions, ∀ k ∈ required_fields, dictHasKey k rec = true)
      ∧ (∀ rec ∈ ps, ∀ k ∈ required_fields, k ≠ S ("last_date") →
          dictGet k (repairRecord (autoOf now text org_name) (orgOf text org_name) rec)
            = some ((dictGet k rec).getD [])) := by
  intro complete parse now text org_name ps res hparse hok
  simp only [payloadFor, orgOf, autoOf] at hparse
  simp only [analyze_with_ultra_strict_ai, hparse] at hok
  have hpos : res.positions
      = ps.map (repairRecord (autoOf now text org_name) (orgOf text org_name)) := by
    by_cases hz : (ps.map (repairRecord
        ((extract_last_date_comprehensive now text
          (detect_organization_from_text text org_name)).1)
        (detect_organization_from_text text org_name))).length = 0
    · rw [if_pos hz] at hok
      exact absurd hok (by simp)
    · rw [if_neg hz] at hok
      have := Except.ok.inj hok
      rw [← this]
      simp [orgOf, autoOf]
  refine ⟨hpos, ?_, ?_, ?_⟩
  · rw [hpos, List.length_map]
  · intro rec hrec k hk
    rw [hpos] at hrec
    obtain ⟨pre, _, rfl⟩ := List.mem_map.mp hrec
    exact repairRecord_hasKey hk _ _ pre
  · intro rec _ k hk hne
    exact repairRecord_get_other hk hne _ _ rec

/-- A completion service whose reply is irrelevant because the decoder
below is constant. -/
def c2Complete : pyStr → pyStr → pyStr → pyStr := fun _ _ _ => []

/-- A decoder returning one record with a single key outside the required
set. -/
def c2Parse : pyStr → Option (List Record) :=
  fun _ => some [[(S ("extra_key"), S ("x"))]]

/-- Positions of a successful orchestrator outcome (empty on error). -/
def okPositions (e : Except pyStr OrgResult) : List Record :=
  match e with
  | .ok r => r.positions
  | .error _ => []

/-- C2 counterexample: when the model's parsed response contains a key
outside the 14 required ones, the returned record has 15 keys, not exactly
the 14 required keys as the claim states — the repair step inserts missing
keys but never removes extra ones. -/
theorem c2_record_completeness_cex :
    (okPositions (analyze_with_ultra_strict_ai c2Complete c2Parse (2025, 1, 1)
        (S ("x")) (S ("NTPC")))).map List.length = [15]
      ∧ required_fields.length = 14 := by
  constructor
  · decide
  · decide

/-- C2 witness: on a concrete run the returned record set has one record
per parsed record. -/
theorem c2_record_completeness_wit :
    (okPositions (analyze_with_ultra_strict_ai c2Complete c2Parse (2025, 1, 1)
        (S ("x")) (S ("NTPC")))).length = 1 := by
  obtain ⟨res, hok⟩ : ∃ r, analyze_with_ultra_strict_ai c2Complete c2Parse (2025, 1, 1)
      (S ("x")) (S ("NTPC")) = .ok r := ⟨_, rfl⟩
  have h := c2_record_completeness c2Complete c2Parse (2025, 1, 1) (S ("x")) (S ("NTPC"))
    [[(S ("extra_key"), S ("x"))]] res rfl hok
  rw [show okPositions (analyze_with_ultra_strict_ai c2Complete c2Parse (2025, 1, 1)
      (S ("x")) (S ("NTPC"))) = res.positions from by rw [hok]; rfl]
  rw [h.2.1]
  rfl

/-!  Lemmas about the stable sort and the report assembly. -/

lemma mem_sortedInsert {x y : OrgResult} {l : List OrgResult} :
    x ∈ sortedInsert y l ↔ x = y ∨ x ∈ l := by
  induction l with
  | nil => simp [sortedInsert]
  | cons z zs ih =>
    by_cases h : orgSortKey y ≤ orgSortKey z
    · simp [sortedInsert, h]
    · simp [sortedInsert, h, ih]
      tauto

lemma mem_sortByKey {x : OrgResult} {l : List OrgResult} :
    x ∈ sortByKey l ↔ x ∈ l := by
  induction l with
  | nil => simp [sortByKey]
  | cons y ys ih => simp [sortByKey, mem_sortedInsert, ih]

lemma length_sortedInsert (y : OrgResult) (l : List OrgResult) :
    (sortedInsert y l).length = l.length + 1 := by
  induction l with
  | nil => rfl
  | cons z zs ih =>
    by_cases h : orgSortKey y ≤ orgSortKey z
    · simp [sortedInsert, h]
    · simp [sortedInsert, h, ih]

lemma length_sortByKey (l : List OrgResult) : (sortByKey l).length = l.length := by
  induction l with
  | nil => rfl
  | cons y ys ih => simp [sortByKey, length_sortedInsert, ih]

lemma sorted_sortedInsert {y : OrgResult} {l : List OrgResult}
    (h : List.Pairwise (fun a b => orgSortKey a ≤ orgSortKey b) l) :
    List.Pairwise (fun a b => orgSortKey a ≤ orgSortKey b) (sortedInsert y l) := by
  induction l with
  | nil => simp [sortedInsert]
  | cons z zs ih =>
    rcases List.pairwise_cons.mp h with ⟨hz, hzs⟩
    by_cases hle : orgSortKey y ≤ orgSortKey z
    · rw [show sortedInsert y (z :: zs) = y :: z :: zs from by simp [sortedInsert, hle]]
      refine List.pairwise_cons.mpr ⟨?_, h⟩
      intro b hb
      rcases List.mem_cons.mp hb with rfl | hbz
      · exact hle
      · exact le_trans hle (hz b hbz)
    · rw [show sortedInsert y (z :: zs) = z :: sortedInsert y zs from by
        simp [sortedInsert, hle]]
      refine List.pairwise_cons.mpr ⟨?_, ih hzs⟩
      intro b hb
      rcases mem_sortedInsert.mp hb with rfl | hbz
      · exact le_of_lt (lt_of_not_le hle)
      · exact hz b hbz

lemma sorted_sortByKey (l : List OrgResult) :
    List.Pairwise (fun a b => orgSortKey a ≤ orgSortKey b) (sortByKey l) := by
  induction l with
  | nil => simp [sortByKey]
  | cons y ys ih => exact sorted_sortedInsert ih

lemma mem_assembleReport_of_mem {r : OrgResult} {rs : List OrgResult} (h : r ∈ rs) :
    r ∈ assembleReport rs := by
  unfold assembleReport
  exact mem_sortByKey.mpr (List.mem_append_left _ h)

lemma enumFrom_mem {files : List UploadedFile} :
    ∀ {n i : Nat} {f : UploadedFile}, files[i]? = some f → (n + i, f) ∈ enumFrom n files := by
  induction files with
  | nil => intro n i f h; simp at h
  | cons hd tl ih =>
    intro n i f h
    cases i with
    | zero =>
      simp at h
      subst h
      simp [enumFrom]
    | succ m =>
      simp only [List.getElem?_cons_succ] at h
      have := ih (n := n + 1) h
      simp only [enumFrom, List.mem_cons]
      right
      have harith : n + 1 + m = n + (m + 1) := by omega
      rwa [harith] at this

/-- Helper facts below apply `assembleReport` to an arbitrary result list;
the claims instantiate them through `analyze_forms`. -/
lemma assembleReport_props (rs : List OrgResult) :
    (∀ o ∈ required_orgs, ∃ r ∈ assembleReport rs, r.organization = o)
    ∧ (assembleReport rs).length = rs.length
        + (required_orgs.filter
            (fun o => !(rs.map (fun r => r.organization)).contains o)).length
    ∧ List.Pairwise (fun a b => orgSortKey a ≤ orgSortKey b) (assembleReport rs) := by
  refine ⟨?_, ?_, ?_⟩
  · intro o ho
    by_cases hp : ∃ r ∈ rs, r.organization = o
    · obtain ⟨r, hr, hro⟩ := hp
      exact ⟨r, mem_assembleReport_of_mem hr, hro⟩
    · refine ⟨missingOrgPlaceholder o, ?_, rfl⟩
      unfold assembleReport
      refine mem_sortByKey.mpr (List.mem_append_right _ ?_)
      refine List.mem_map.mpr ⟨o, List.mem_filter.mpr ⟨ho, ?_⟩, rfl⟩
      have hno : o ∉ rs.map (fun r => r.organization) := by
        intro hmem
        obtain ⟨r, hr, hro⟩ := List.mem_map.mp hmem
        exact hp ⟨r, hr, hro⟩
      simpa using hno
  · unfold assembleReport
    rw [length_sortByKey, List.length_append, List.length_map]
  · exact sorted_sortByKey _

/-- C3: a document whose stripped text is below the 100-character content
threshold is never handed to the AI stage — the per-file result is the
manual-review placeholder and does not depend on the AI function at all —
and that placeholder is a single record marked `CHECK PDF MANUALLY` with
0% last-date and 0% salary coverage. -/
theorem c3_short_document_short_circuit :
    ∀ (ai ai2 : pyStr → pyStr → Except pyStr OrgResult) (orgNames : List pyStr)
      (idx : Nat) (filename text : pyStr),
      strHasSuffix filename (S (".pdf")) = true →
      (pyStrip text).length < 100 →
      (processFile ai orgNames idx ⟨filename, .ok text⟩
          = some (emptyPdfPlaceholder
              (pyOrElse ((orgNames[idx]?).getD (orgFromFilename filename))
                (pyOrElse (orgFromFilename filename)
                  (S ("Organization_") ++ natToStr (idx + 1))))))
      ∧ processFile ai orgNames idx ⟨filename, .ok text⟩
          = processFile ai2 orgNames idx ⟨filename, .ok text⟩
      ∧ (∀ org : pyStr,
          (emptyPdfPlaceholder org).extraction_quality.last_date_coverage = S ("0%")
          ∧ (emptyPdfPlaceholder org).extraction_quality.salary_coverage = S ("0%")
          ∧ (emptyPdfPlaceholder org).positions.length = 1
          ∧ (∀ rec ∈ (emptyPdfPlaceholder org).positions,
              dictGet (S ("post_name")) rec = some (S ("CHECK PDF MANUALLY")))) := by
  intro ai ai2 orgNames idx filename text hsuf hshort
  have hmain : ∀ ai0 : pyStr → pyStr → Except pyStr OrgResult,
      processFile ai0 orgNames idx ⟨filename, .ok text⟩
        = some (emptyPdfPlaceholder
            (pyOrElse ((orgNames[idx]?).getD (orgFromFilename filename))
              (pyOrElse (orgFromFilename filename)
                (S ("Organization_") ++ natToStr (idx + 1))))) := by
    intro ai0
    simp [processFile, hsuf, hshort]
  refine ⟨hmain ai, (hmain ai).trans (hmain ai2).symm, ?_⟩
  intro org
  refine ⟨rfl, rfl, rfl, ?_⟩
  intro rec hrec
  simp only [emptyPdfPlaceholder, List.mem_singleton] at hrec
  subst hrec
  decide

/-- C3 witness: a whitespace-only document with an AAU filename produces
the AAU manual-review placeholder (with an AI stage that would error if it
were ever consulted). -/
theorem c3_short_document_short_circuit_wit :
    processFile (fun _ _ => .error []) [] 0 ⟨S ("aau_notice.pdf"), .ok (S ("   "))⟩
      = some (emptyPdfPlaceholder (S ("AAU"))) := by
  have h := (c3_short_document_short_circuit (fun _ _ => .error []) (fun _ _ => .error [])
    [] 0 (S ("aau_notice.pdf")) (S ("   ")) (by decide) (by decide)).1
  exact h.trans (by decide)

/-- C10: a document whose AI stage fails is converted, alone, into a
single-record error placeholder whose remark carries the failure text; the
batch still completes, producing a report that contains that placeholder
(the other documents' entries are computed independently by the
per-document map). -/
theorem c10_failure_isolation :
    ∀ (ai : pyStr → pyStr → Except pyStr OrgResult) (orgNames : List pyStr)
      (files : List UploadedFile) (idx : Nat) (filename text e : pyStr),
      files[idx]? = some ⟨filename, .ok text⟩ →
      strHasSuffix filename (S (".pdf")) = true →
      ¬ (pyStrip text).length < 100 →
      ai text ((orgNames[idx]?).getD (orgFromFilename filename)) = .error e →
      (processFile ai orgNames idx ⟨filename, .ok text⟩
          = some (errorPlaceholder
              (pyOrElse (orgNames.getD idx [])
                (S ("Organization_") ++ natToStr (idx + 1))) e))
      ∧ (∀ org : pyStr,
          (errorPlaceholder org e).positions.length = 1
          ∧ ∀ rec ∈ (errorPlaceholder org e).positions,
              dictGet (S ("remarks")) rec = some (S ("Error during extraction: ") ++ e))
      ∧ (∃ out, analyze_forms ai orgNames files = .ok out
          ∧ errorPlaceholder
              (pyOrElse (orgNames.getD idx [])
                (S ("Organization_") ++ natToStr (idx + 1))) e ∈ out) := by
  intro ai orgNames files idx filename text e hfile hsuf hlong hai
  have hmain : processFile ai orgNames idx ⟨filename, .ok text⟩
      = some (errorPlaceholder
          (pyOrElse (orgNames.getD idx [])
            (S ("Organization_") ++ natToStr (idx + 1))) e) := by
    simp [processFile, hsuf, hlong, hai]
  refine ⟨hmain, ?_, ?_⟩
  · intro org
    refine ⟨rfl, ?_⟩
    intro rec hrec
    simp only [errorPlaceholder, List.mem_singleton] at hrec
    subst hrec
    rfl
  · refine ⟨assembleReport (processedResults ai orgNames files), ?_, ?_⟩
    · cases hfs : files with
      | nil => rw [hfs] at hfile; simp at hfile
      | cons f fs => simp [analyze_forms, processedResults]
    · apply mem_assembleReport_of_mem
      unfold processedResults
      apply List.mem_filterMap.mpr
      refine ⟨(idx, ⟨filename, .ok text⟩), ?_, hmain⟩
      have h0 := enumFrom_mem (n := 0) hfile
      simpa using h0

/-- Long enough concrete document text for the C10 witness (over 100
characters after stripping). -/
def c10Text : pyStr :=
  S ("This advertisement text is deliberately longer than one hundred characters so that the normal processing path is taken.")

/-- C10 witness: a failing AI stage on a long-enough document yields the
error placeholder with the failure remark. -/
theorem c10_failure_isolation_wit :
    processFile (fun _ _ => .error (S ("boom"))) [] 0 ⟨S ("a.pdf"), .ok c10Text⟩
      = some (errorPlaceholder (S ("Organization_1")) (S ("boom"))) := by
  have h := (c10_failure_isolation (fun _ _ => .error (S ("boom"))) []
    [⟨S ("a.pdf"), .ok c10Text⟩] 0 (S ("a.pdf")) c10Text (S ("boom"))
    rfl (by decide) (by decide) rfl).1
  exact h.trans (by decide)

/-- C1 (amended): every batch report contains at least one entry per
required organization and is sorted by the canonical key (required
organizations in canonical order, others after); its size is the number of
per-document results plus one backfill placeholder per required
organization absent from them — exactly 5 only when the per-document
results' organizations are distinct required organizations, and in
particular the report is exactly the canonical 5 when no document
contributes a result. -/
theorem c1_report_set :
    ∀ (ai : pyStr → pyStr → Except pyStr OrgResult) (orgNames : List pyStr)
      (files : List UploadedFile) (out : List OrgResult),
      analyze_forms ai orgNames files = .ok out →
      out = assembleReport (processedResults ai orgNames files)
      ∧ (∀ o ∈ required_orgs, ∃ r ∈ out, r.organization = o)
      ∧ List.Pairwise (fun a b => orgSortKey a ≤ orgSortKey b) out
      ∧ out.length = (processedResults ai orgNames files).length
          + (required_orgs.filter
              (fun o => !((processedResults ai orgNames files).map
                  (fun r => r.organization)).contains o)).length
      ∧ (processedResults ai orgNames files = [] →
          out.map (fun r => r.organization) = required_orgs) := by
  intro ai orgNames files out hok
  have hout : out = assembleReport (processedResults ai orgNames files) := by
    unfold analyze_forms at hok
    by_cases hmt : files.isEmpty = true
    · rw [if_pos hmt] at hok
      exact absurd hok (by simp)
    · rw [if_neg hmt] at hok
      exact (Except.ok.inj hok).symm
  have hprops := assembleReport_props (processedResults ai orgNames files)
  refine ⟨hout, ?_, ?_, ?_, ?_⟩
  · rw [hout]
    exact hprops.1
  · rw [hout]
    exact hprops.2.2
  · rw [hout]
    exact hprops.2.1
  · intro hemp
    rw [hout, hemp]
    decide

/-- An AI stage never reached by the C1 witness's non-PDF upload. -/
def c1Ai : pyStr → pyStr → Except pyStr OrgResult := fun _ _ => .error []

/-- A batch whose only file is skipped for not being a PDF. -/
def c1Files : List UploadedFile := [⟨S ("notes.txt"), .ok []⟩]

/-- C1 witness: a batch contributing no per-document result reports exactly
the 5 required organizations in canonical order. -/
theorem c1_report_set_wit :
    analyze_forms c1Ai [] c1Files = .ok (assembleReport (processedResults c1Ai [] c1Files))
    ∧ (assembleReport (processedResults c1Ai [] c1Files)).map (fun r => r.organization)
        = required_orgs := by
  have h := c1_report_set c1Ai [] c1Files
    (assembleReport (processedResults c1Ai [] c1Files)) rfl
  exact ⟨rfl, h.2.2.2.2 (by decide)⟩

/-- The completion service for the C1 counterexample (its reply is ignored
by the constant decoder below). -/
def cxComplete : pyStr → pyStr → pyStr → pyStr := fun _ _ _ => []

/-- A decoder returning a single minimal record. -/
def cxParse : pyStr → Option (List Record) :=
  fun _ => some [[(S ("post_name"), S ("Engineer"))]]

/-- The real (modelled) orchestrator wired to the concrete collaborators
above. -/
def cxAi : pyStr → pyStr → Except pyStr OrgResult :=
  fun text hint => analyze_with_ultra_strict_ai cxComplete cxParse (2025, 1, 1) text hint

/-- A document text that resolves to NTPC and passes the length
threshold. -/
def cxText : pyStr :=
  S ("NTPC Green Energy Limited recruitment advertisement for engineer positions across India. Applications are invited from eligible candidates.")

/-- Two uploads that both resolve to NTPC. -/
def cxFiles : List UploadedFile :=
  [⟨S ("a.pdf"), .ok cxText⟩, ⟨S ("b.pdf"), .ok cxText⟩]

/-- Organization column of a successful batch report. -/
def reportOrgs (e : Except pyStr (List OrgResult)) : List pyStr :=
  match e with
  | .ok out => out.map (fun r => r.organization)
  | .error _ => []

/-- C1 counterexample: two uploads resolving to the same organization give
a 6-entry report (NTPC twice), so the assembled report set does not always
contain exactly 5 entries, one per required organization. -/
theorem c1_report_set_cex :
    reportOrgs (analyze_forms cxAi [] cxFiles)
      = [S ("AAU"), S ("CSIR"), S ("NHM"), S ("NTPC"), S ("NTPC"), S ("TANUVAS")]
    ∧ (reportOrgs (analyze_forms cxAi [] cxFiles)).length ≠ 5 := by
  constructor
  · decide
  · decide

end JobForm




